import Mathlib

/-!
# NativeStitcher: the JNI shim around the panorama stitching pipeline

A shallow embedding of `app/src/main/cpp/NativeStitcher.cpp`.

* `Mat` is the image descriptor the shim reads (`rows`, `cols`, `channels()`, `empty()`)
  together with its pixels.
* The double-precision arithmetic of the downscale step is embedded exactly: a `Double`
  is a non-negative dyadic number and every operation rounds to 53 significant bits,
  to nearest, ties to even.  The operands of the shim are 32-bit integers and the constant
  `1000.0`, so neither overflow nor underflow of the exponent can arise there.
* The library calls (`cvtColor`, `copyTo`, `resize`, `Stitcher::stitch`) are recorded in a
  trace, so that statements about which calls happen, and with which arguments, can be made.
* `resize` raises a library error on an empty target size. The shim has no handler, so such
  an error ends the call: the loop stops, the pipeline is not reached and nothing is returned.
-/

namespace NativeStitcher

/-! ## Binary64 arithmetic used by the downscale step -/

/-- A non-negative finite double: the value `man * 2 ^ exp`. -/
structure Double where
  man : Nat
  exp : Int
deriving DecidableEq, Repr

/-- The rational value of a double. -/
def Double.toRat (d : Double) : ℚ := (d.man : ℚ) * (2 : ℚ) ^ d.exp

/-- Quotient `a / b` rounded to the nearest integer, ties to the even one. -/
def roundNearestEven (a b : Nat) : Nat :=
  if 2 * (a % b) < b then a / b
  else if b < 2 * (a % b) then a / b + 1
  else if (a / b) % 2 = 0 then a / b
  else a / b + 1

/-- Integer part of the binary logarithm of `n`, by repeated halving (at most `fuel` times). -/
def log2Aux : Nat → Nat → Nat
  | 0, _ => 0
  | fuel + 1, n => if 2 ≤ n then log2Aux fuel (n / 2) + 1 else 0

/-- Integer part of the binary logarithm of `n` (`0` for `n = 0`). -/
def log2 (n : Nat) : Nat := log2Aux n n

/-- Integer part of the binary logarithm of `a / b`, for `a, b > 0`. -/
def floorLog2Ratio (a b : Nat) : Int :=
  if b * 2 ^ log2 a ≤ a * 2 ^ log2 b then (log2 a : Int) - (log2 b : Int)
  else (log2 a : Int) - (log2 b : Int) - 1

/-- The double nearest to `(a / b) * 2 ^ e` (53 significant bits, ties to even). -/
def roundBinary64 (a b : Nat) (e : Int) : Double :=
  if a = 0 then ⟨0, 0⟩
  else
    let sh : Int := floorLog2Ratio a b - 52
    if 0 ≤ sh then ⟨roundNearestEven a (b * 2 ^ sh.toNat), sh + e⟩
    else ⟨roundNearestEven (a * 2 ^ (-sh).toNat) b, sh + e⟩

/-- Conversion `static_cast<double>(n)` of a 32-bit integer: exact. -/
def Double.ofInt (n : Nat) : Double := ⟨n, 0⟩

/-- Double division `x / y`, correctly rounded. -/
def Double.div (x y : Double) : Double := roundBinary64 x.man y.man (x.exp - y.exp)

/-- Double multiplication `x * y`, correctly rounded. -/
def Double.mul (x y : Double) : Double := roundBinary64 (x.man * y.man) 1 (x.exp + y.exp)

/-- Conversion `static_cast<int>(x)` of a non-negative double: truncation. -/
def Double.toInt (x : Double) : Nat :=
  if 0 ≤ x.exp then x.man * 2 ^ x.exp.toNat else x.man / 2 ^ (-x.exp).toNat

/-- The comparison `n > x` of an integer with a double. -/
def Double.ltInt (x : Double) (n : Nat) : Bool :=
  if 0 ≤ x.exp then decide (x.man * 2 ^ x.exp.toNat < n)
  else decide (x.man < n * 2 ^ (-x.exp).toNat)

/-- Line 40: `const double targetHeight = 1000.0;` -/
def targetHeight : Double := Double.ofInt 1000

/-- Line 42: `scale = targetHeight / static_cast<double>(prepared.rows)`. -/
def scale (rows : Nat) : Double := Double.div targetHeight (Double.ofInt rows)

/-- Line 43: `newWidth = static_cast<int>(prepared.cols * scale)`. -/
def newWidth (rows cols : Nat) : Nat :=
  Double.toInt (Double.mul (Double.ofInt cols) (scale rows))

/-- Line 44: `newHeight = static_cast<int>(prepared.rows * scale)`. -/
def newHeight (rows : Nat) : Nat :=
  Double.toInt (Double.mul (Double.ofInt rows) (scale rows))

/-! ## Images and the library operations the shim calls -/

/-- The part of `cv::Mat` the shim reads, with the pixels (one list of channel values each). -/
structure Mat where
  rows : Nat
  cols : Nat
  channels : Nat
  data : List (List Nat)
deriving DecidableEq, Repr

/-- The call `Mat::empty()`: no pixel at all. -/
def Mat.empty (m : Mat) : Bool := m.rows == 0 || m.cols == 0

/-- The three colour conversions the shim requests. -/
inductive ColorConversionCode where
  | COLOR_RGBA2RGB
  | COLOR_GRAY2RGB
  | COLOR_BGR2RGBA
deriving DecidableEq, Repr

/-- Number of channels of the destination of a colour conversion. -/
def ColorConversionCode.dstChannels : ColorConversionCode → Nat
  | .COLOR_RGBA2RGB => 3
  | .COLOR_GRAY2RGB => 3
  | .COLOR_BGR2RGBA => 4

/-- Colour conversion of one pixel: alpha dropped, gray replicated, or the three colours
swapped and a full alpha appended. -/
def cvtPixel : ColorConversionCode → List Nat → List Nat
  | .COLOR_RGBA2RGB, p => p.take 3
  | .COLOR_GRAY2RGB, p => [p.headD 0, p.headD 0, p.headD 0]
  | .COLOR_BGR2RGBA, p => [p.getD 2 0, p.getD 1 0, p.getD 0 0, 255]

/-- The library call `cvtColor(src, dst, code)`: same size, converted pixels. -/
def cvtColor (src : Mat) (code : ColorConversionCode) : Mat :=
  { rows := src.rows, cols := src.cols, channels := code.dstChannels,
    data := src.data.map (cvtPixel code) }

/-- The library call `src.copyTo(dst)`: a deep copy. -/
def copyTo (src : Mat) : Mat := src

/-- Status values of `Stitcher::Status`. -/
inductive Status where
  | OK
  | ERR_NEED_MORE_IMGS
  | ERR_HOMOGRAPHY_EST_FAIL
  | ERR_CAMERA_PARAMS_ADJUST_FAIL
deriving DecidableEq, Repr

/-- Line 60: `static_cast<jint>(status)`. -/
def Status.toJint : Status → Int
  | .OK => 0
  | .ERR_NEED_MORE_IMGS => 1
  | .ERR_HOMOGRAPHY_EST_FAIL => 2
  | .ERR_CAMERA_PARAMS_ADJUST_FAIL => 3

/-- The two library computations whose results the shim does not determine: the pixels a
resize produces, and the stitching pipeline (`Stitcher::stitch(images, result)` of a stitcher
created in panorama mode with horizontal wave correction), which returns a status and the
new content of the output buffer. -/
structure Library where
  interpolate : Mat → Nat → Nat → List (List Nat)
  stitch : List Mat → Mat → Status × Mat

/-- The library call `resize(src, dst, Size(width, height))`. The library requires both sides
of the size to be positive and raises an error otherwise: then there is no result. With a
non-empty size the result has the requested size, the source channel count and resampled
pixels. (The library also refuses an empty source; a source the shim passes here has more
than 1000 rows, so it is empty only with 0 columns, and then the requested width is 0.) -/
def resize (cv : Library) (src : Mat) (width height : Nat) : Option Mat :=
  if width = 0 ∨ height = 0 then none
  else some { rows := height, cols := width, channels := src.channels,
              data := cv.interpolate src width height }

/-- One library call made by the shim, with its arguments. -/
inductive Call where
  | cvtColor (src : Mat) (code : ColorConversionCode)
  | copyTo (src : Mat)
  | resize (src : Mat) (width height : Nat)
  | stitch (images : List Mat)
deriving DecidableEq, Repr

/-- The image list of a pipeline invocation, nothing for any other call. -/
def Call.stitchedImages : Call → Option (List Mat)
  | .stitch images => some images
  | _ => none

/-! ## The shim

The shim catches no library error. When a library call raises one, the call of the shim ends
there: later statements are not executed and no value is returned. A step therefore yields
an optional value (absent after a library error) and the library calls made. -/

/-- Lines 30-37: bring the source image to three channels. -/
def convertChannels (src : Mat) : Mat × List Call :=
  if src.channels = 4 then
    (cvtColor src .COLOR_RGBA2RGB, [Call.cvtColor src .COLOR_RGBA2RGB])
  else if src.channels = 1 then
    (cvtColor src .COLOR_GRAY2RGB, [Call.cvtColor src .COLOR_GRAY2RGB])
  else
    (copyTo src, [Call.copyTo src])

/-- Lines 39-46: downscale an image taller than the target height. The result is absent
when the resize call raises. -/
def downscale (cv : Library) (prepared : Mat) : Option Mat × List Call :=
  if Double.ltInt targetHeight prepared.rows then
    (resize cv prepared (newWidth prepared.rows prepared.cols) (newHeight prepared.rows),
      [Call.resize prepared (newWidth prepared.rows prepared.cols) (newHeight prepared.rows)])
  else
    (some prepared, [])

/-- Lines 27-46: the body of the loop for one source image, giving `prepared` (absent when
the resize call raises) and the library calls made. -/
def prepare (cv : Library) (src : Mat) : Option Mat × List Call :=
  ((downscale cv (convertChannels src).1).1,
    (convertChannels src).2 ++ (downscale cv (convertChannels src).1).2)

/-- Lines 26-49: the loop over the sources, pushing each prepared image to the back of
`images`. The loop stops at the first source whose preparation raises, and then yields
no image list. -/
def prepareLoop (cv : Library) :
    List Mat → List Mat → List Call → Option (List Mat) × List Call
  | [], images, calls => (some images, calls)
  | src :: rest, images, calls =>
      match (prepare cv src).1 with
      | none => (none, calls ++ (prepare cv src).2)
      | some prepared => prepareLoop cv rest (images ++ [prepared]) (calls ++ (prepare cv src).2)

/-- What a call of the shim leaves behind: the returned `jint` (absent when a library error
ended the call before any return), the content of the output buffer, and the library calls
made, in order. -/
structure Outcome where
  code : Option Int
  result : Mat
  calls : List Call
deriving DecidableEq, Repr

/-- Lines 11-67: the JNI entry point. `image_addresses` are the images the addresses point
to, `output` is the content of the buffer at `output_address` before the call. -/
def Java_com_pavit_openphotosphere_opencv_NativeStitcher_stitch
    (cv : Library) (image_addresses : List Mat) (output : Mat) : Outcome :=
  if image_addresses.length < 2 then
    { code := some (-1), result := output, calls := [] }
  else
    match (prepareLoop cv image_addresses [] []).1 with
    | none =>
        { code := none, result := output, calls := (prepareLoop cv image_addresses [] []).2 }
    | some images =>
        if (cv.stitch images output).1 ≠ Status.OK ∨
            (cv.stitch images output).2.empty = true then
          { code := some (cv.stitch images output).1.toJint,
            result := (cv.stitch images output).2,
            calls := (prepareLoop cv image_addresses [] []).2 ++ [Call.stitch images] }
        else
          { code := some (cv.stitch images output).1.toJint,
            result := cvtColor (cv.stitch images output).2 .COLOR_BGR2RGBA,
            calls := (prepareLoop cv image_addresses [] []).2 ++ [Call.stitch images] ++
              [Call.cvtColor (cv.stitch images output).2 .COLOR_BGR2RGBA] }

/-! ## Sample data -/

/-- Nearest-neighbour resampling, as one possible interpolation. -/
def nearestPixels (src : Mat) (width height : Nat) : List (List Nat) :=
  (List.range (width * height)).map fun i =>
    src.data.getD ((i / width * src.rows / height) * src.cols + i % width * src.cols / width) []

/-- A pipeline that finds too little overlap and leaves the output buffer alone. -/
def needMoreImages : Library :=
  { interpolate := nearestPixels
    stitch := fun _ output => (Status.ERR_NEED_MORE_IMGS, output) }

/-- A pipeline that reports success and returns the first image as panorama. -/
def firstImagePanorama : Library :=
  { interpolate := nearestPixels
    stitch := fun images _ => (Status.OK, images.headD ⟨0, 0, 3, []⟩) }

/-- A pipeline that reports success with an empty panorama. -/
def emptyPanorama : Library :=
  { interpolate := nearestPixels
    stitch := fun _ _ => (Status.OK, ⟨0, 0, 3, []⟩) }

/-- A 1 x 2 RGBA image. -/
def rgbaImage : Mat := ⟨1, 2, 4, [[10, 20, 30, 255], [40, 50, 60, 255]]⟩

/-- A 2 x 1 RGB image. -/
def rgbImage : Mat := ⟨2, 1, 3, [[1, 2, 3], [4, 5, 6]]⟩

/-- A 1 x 1 gray image. -/
def grayImage : Mat := ⟨1, 1, 1, [[7]]⟩

/-- An image of 2000 rows and a single column. -/
def thinImage : Mat := ⟨2000, 1, 3, List.replicate 2000 [0, 0, 0]⟩

/-- An image of 1001 rows and 1500 columns. -/
def wideImage : Mat := ⟨1001, 1500, 3, List.replicate (1001 * 1500) [0, 0, 0]⟩

/-- The exact scaled dimension `n * 1000 / rows` rounded to the nearest integer, as the
specification words the downscale. -/
def roundedDimension (n rows : Nat) : Nat := (2 * (n * 1000) + rows) / (2 * rows)

/-! ## Rounding to binary64: error bounds -/

theorem log2Aux_spec (fuel n : Nat) (hf : n ≤ fuel) (hn : n ≠ 0) :
    2 ^ log2Aux fuel n ≤ n ∧ n < 2 ^ (log2Aux fuel n + 1) := by
  induction fuel generalizing n with
  | zero => omega
  | succ f ih =>
    unfold log2Aux
    split
    · have h := ih (n / 2) (by omega) (by omega)
      constructor
      · rw [pow_succ]; omega
      · rw [pow_succ]; omega
    · simp; omega

theorem log2_spec (n : Nat) (hn : n ≠ 0) : 2 ^ log2 n ≤ n ∧ n < 2 ^ (log2 n + 1) :=
  log2Aux_spec n n (le_refl n) hn

theorem floorLog2Ratio_spec (a b : Nat) (ha : a ≠ 0) (hb : b ≠ 0) :
    (2 : ℚ) ^ floorLog2Ratio a b * b ≤ a ∧ (a : ℚ) < 2 ^ (floorLog2Ratio a b + 1) * b := by
  obtain ⟨ha1, ha2⟩ := log2_spec a ha
  obtain ⟨hb1, hb2⟩ := log2_spec b hb
  have ha1q : (2 : ℚ) ^ log2 a ≤ a := by exact_mod_cast ha1
  have ha2q : (a : ℚ) < 2 ^ log2 a * 2 := by rw [← pow_succ]; exact_mod_cast ha2
  have hb1q : (2 : ℚ) ^ log2 b ≤ b := by exact_mod_cast hb1
  have hb2q : (b : ℚ) < 2 ^ log2 b * 2 := by rw [← pow_succ]; exact_mod_cast hb2
  have hA : (0 : ℚ) < 2 ^ log2 a := by positivity
  have hB : (0 : ℚ) < 2 ^ log2 b := by positivity
  have e1 : (2 : ℚ) ^ ((log2 a : Int) - (log2 b : Int)) = 2 ^ log2 a / 2 ^ log2 b := by
    rw [zpow_sub₀ (by norm_num)]; simp
  have e2 : (2 : ℚ) ^ ((log2 a : Int) - (log2 b : Int) + 1) = 2 ^ log2 a / 2 ^ log2 b * 2 := by
    rw [zpow_add_one₀ (by norm_num), e1]
  have e3 : (2 : ℚ) ^ ((log2 a : Int) - (log2 b : Int) - 1) = 2 ^ log2 a / 2 ^ log2 b / 2 := by
    rw [zpow_sub_one₀ (by norm_num), e1]; rfl
  unfold floorLog2Ratio
  split
  · rename_i h
    have hq : (b : ℚ) * 2 ^ log2 a ≤ a * 2 ^ log2 b := by exact_mod_cast h
    rw [e1, e2]
    constructor
    · rw [div_mul_eq_mul_div, div_le_iff₀ hB]; linarith
    · rw [div_mul_eq_mul_div, div_mul_eq_mul_div, lt_div_iff₀ hB]
      nlinarith
  · rename_i h
    have hq : (a : ℚ) * 2 ^ log2 b < b * 2 ^ log2 a := by exact_mod_cast not_le.mp h
    rw [e3, sub_add_cancel, e1]
    constructor
    · rw [div_div, div_mul_eq_mul_div, div_le_iff₀ (by positivity)]
      nlinarith
    · rw [div_mul_eq_mul_div, lt_div_iff₀ hB]; linarith

theorem roundNearestEven_spec (a b : Nat) (hb : 0 < b) :
    2 * (b * roundNearestEven a b) ≤ 2 * a + b ∧ 2 * a ≤ 2 * (b * roundNearestEven a b) + b := by
  have h := Nat.div_add_mod a b
  have hr := Nat.mod_lt a hb
  unfold roundNearestEven
  split_ifs <;> (try simp only [Nat.mul_add, Nat.mul_one]) <;> omega

theorem roundNearestEven_abs (a b : Nat) (hb : 0 < b) :
    |(roundNearestEven a b : ℚ) - (a : ℚ) / b| ≤ 1 / 2 := by
  obtain ⟨h1, h2⟩ := roundNearestEven_spec a b hb
  have h1q : (2 : ℚ) * (b * roundNearestEven a b) ≤ 2 * a + b := by exact_mod_cast h1
  have h2q : (2 : ℚ) * a ≤ 2 * (b * roundNearestEven a b) + b := by exact_mod_cast h2
  have hbq : (0 : ℚ) < b := by exact_mod_cast hb
  rw [abs_le]
  constructor
  · have h : (a : ℚ) / b ≤ roundNearestEven a b + 1 / 2 := by
      rw [div_le_iff₀ hbq]; nlinarith
    linarith
  · have h : (roundNearestEven a b : ℚ) - 1 / 2 ≤ a / b := by
      rw [le_div_iff₀ hbq]; nlinarith
    linarith

/-- Rounding `(a / b) * 2 ^ e` to binary64 moves the value by at most the fraction
`2 ^ (-53)` of it. -/
theorem roundBinary64_error (a b : Nat) (e : Int) (ha : a ≠ 0) (hb : b ≠ 0) :
    |(roundBinary64 a b e).toRat - (a : ℚ) / b * 2 ^ e| ≤ (a : ℚ) / b * 2 ^ e / 2 ^ 53 := by
  obtain ⟨hk1, hk2⟩ := floorLog2Ratio_spec a b ha hb
  have hbq : (0 : ℚ) < b := by exact_mod_cast Nat.pos_of_ne_zero hb
  have haq : (0 : ℚ) < a := by exact_mod_cast Nat.pos_of_ne_zero ha
  have h2 : (2 : ℚ) ≠ 0 := by norm_num
  have hE : (0 : ℚ) < 2 ^ e := by positivity
  -- the scaled quotient whose nearest integer is the mantissa
  have key : ∀ m : Nat, |(m : ℚ) - (a : ℚ) / b * 2 ^ (-(floorLog2Ratio a b - 52))| ≤ 1 / 2 →
      |(m : ℚ) * 2 ^ (floorLog2Ratio a b - 52 + e) - (a : ℚ) / b * 2 ^ e| ≤
        (a : ℚ) / b * 2 ^ e / 2 ^ 53 := by
    intro m hm
    have hS : (0 : ℚ) < 2 ^ (floorLog2Ratio a b - 52) := by positivity
    have e1 : (m : ℚ) * 2 ^ (floorLog2Ratio a b - 52 + e) - (a : ℚ) / b * 2 ^ e =
        ((m : ℚ) - (a : ℚ) / b * 2 ^ (-(floorLog2Ratio a b - 52))) *
          (2 ^ (floorLog2Ratio a b - 52) * 2 ^ e) := by
      rw [zpow_add₀ h2, zpow_neg]
      field_simp
      ring
    rw [e1, abs_mul, abs_of_pos (mul_pos hS hE)]
    have e2 : (2 : ℚ) ^ (floorLog2Ratio a b - 52) = 2 ^ floorLog2Ratio a b / 2 ^ 52 := by
      rw [zpow_sub₀ h2]; norm_cast
    have h52 : (2 : ℚ) ^ floorLog2Ratio a b ≤ a / b := by
      rw [le_div_iff₀ hbq]; exact hk1
    have hK : (0 : ℚ) < 2 ^ floorLog2Ratio a b := by positivity
    calc |(m : ℚ) - (a : ℚ) / b * 2 ^ (-(floorLog2Ratio a b - 52))| *
          (2 ^ (floorLog2Ratio a b - 52) * 2 ^ e)
        ≤ 1 / 2 * (2 ^ (floorLog2Ratio a b - 52) * 2 ^ e) :=
          mul_le_mul_of_nonneg_right hm (le_of_lt (mul_pos hS hE))
      _ = 2 ^ floorLog2Ratio a b * 2 ^ e / 2 ^ 53 := by rw [e2]; ring
      _ ≤ (a : ℚ) / b * 2 ^ e / 2 ^ 53 := by
          apply div_le_div_of_nonneg_right _ (by positivity)
          exact mul_le_mul_of_nonneg_right h52 (le_of_lt hE)
  unfold roundBinary64
  rw [if_neg ha]
  simp only [Double.toRat]
  split
  · rename_i hsh
    apply key
    obtain ⟨n, hn⟩ := Int.eq_ofNat_of_zero_le hsh
    have hpos : 0 < b * 2 ^ n := by positivity
    have h := roundNearestEven_abs a (b * 2 ^ n) hpos
    rw [hn, Int.toNat_ofNat, zpow_neg, zpow_natCast]
    have e3 : ((a : ℚ) / ((b * 2 ^ n : Nat) : ℚ)) = (a : ℚ) / b * (2 ^ n)⁻¹ := by
      push_cast
      field_simp
    rw [e3] at h
    exact h
  · rename_i hsh
    apply key
    obtain ⟨n, hn⟩ := Int.eq_ofNat_of_zero_le (show 0 ≤ -(floorLog2Ratio a b - 52) by omega)
    have h := roundNearestEven_abs (a * 2 ^ n) b (Nat.pos_of_ne_zero hb)
    rw [hn, Int.toNat_ofNat, zpow_natCast]
    have e3 : (((a * 2 ^ n : Nat) : ℚ) / b) = (a : ℚ) / b * 2 ^ n := by
      push_cast
      field_simp
    rw [e3] at h
    exact h

/-- Truncation of a double is the integer part of its value. -/
theorem Double.toInt_eq_floor (x : Double) : x.toInt = ⌊x.toRat⌋₊ := by
  unfold Double.toInt Double.toRat
  split
  · rename_i h
    obtain ⟨n, hn⟩ := Int.eq_ofNat_of_zero_le h
    rw [hn, Int.toNat_ofNat, zpow_natCast]
    have e : ((x.man : ℚ) * 2 ^ n) = ((x.man * 2 ^ n : Nat) : ℚ) := by push_cast; rfl
    rw [e, Nat.floor_natCast]
  · rename_i h
    obtain ⟨n, hn⟩ := Int.eq_ofNat_of_zero_le (show 0 ≤ -x.exp by omega)
    have e : x.exp = -(n : Int) := by omega
    rw [hn, Int.toNat_ofNat, e, zpow_neg, zpow_natCast, ← div_eq_mul_inv]
    rw [show ((2 : ℚ) ^ n) = ((2 ^ n : Nat) : ℚ) by push_cast; rfl]
    rw [Nat.floor_div_eq_div]

/-! ## The computed target size -/

theorem scale_error (rows : Nat) (hr : rows ≠ 0) :
    |(scale rows).toRat - 1000 / rows| ≤ 1000 / rows / 2 ^ 53 := by
  have h := roundBinary64_error 1000 rows (0 - 0) (by norm_num) hr
  simpa [scale, Double.div, targetHeight, Double.ofInt] using h

theorem scale_man_ne_zero (rows : Nat) (hr : rows ≠ 0) : (scale rows).man ≠ 0 := by
  intro h0
  have h := scale_error rows hr
  have hq : (0 : ℚ) < rows := by exact_mod_cast Nat.pos_of_ne_zero hr
  have hx : (0 : ℚ) < 1000 / rows := by positivity
  have hz : (scale rows).toRat = 0 := by simp [Double.toRat, h0]
  rw [hz, zero_sub, abs_neg, abs_of_pos hx] at h
  have : (1000 : ℚ) / rows / 2 ^ 53 < 1000 / rows := by
    apply div_lt_self hx; norm_num
  linarith

/-- The product `c * scale` as the shim computes it is the exact `c * 1000 / rows` up to two
roundings. -/
theorem scaled_error (rows c : Nat) (hr : rows ≠ 0) (hc : c ≠ 0) :
    (c : ℚ) * 1000 / rows * (1 - 1 / 2 ^ 53) ^ 2 ≤
        (Double.mul (Double.ofInt c) (scale rows)).toRat ∧
      (Double.mul (Double.ofInt c) (scale rows)).toRat ≤
        (c : ℚ) * 1000 / rows * (1 + 1 / 2 ^ 53) ^ 2 := by
  have hs := scale_error rows hr
  have hm := scale_man_ne_zero rows hr
  have h := roundBinary64_error (c * (scale rows).man) 1 (0 + (scale rows).exp)
    (Nat.mul_ne_zero hc hm) (by norm_num)
  have e : ((c * (scale rows).man : Nat) : ℚ) / (1 : Nat) * 2 ^ (0 + (scale rows).exp) =
      c * (scale rows).toRat := by
    simp only [Double.toRat]; push_cast; rw [zero_add]; ring
  rw [e] at h
  have hy : (Double.mul (Double.ofInt c) (scale rows)).toRat =
      (roundBinary64 (c * (scale rows).man) 1 (0 + (scale rows).exp)).toRat := by
    simp [Double.mul, Double.ofInt]
  rw [hy]
  have hq : (0 : ℚ) < rows := by exact_mod_cast Nat.pos_of_ne_zero hr
  have hcq : (0 : ℚ) < c := by exact_mod_cast Nat.pos_of_ne_zero hc
  rw [abs_le] at h hs
  obtain ⟨h1, h2⟩ := h
  obtain ⟨s1, s2⟩ := hs
  set s := (scale rows).toRat with hsdef
  set y := (roundBinary64 (c * (scale rows).man) 1 (0 + (scale rows).exp)).toRat with hydef
  have hx : (0 : ℚ) < 1000 / rows := by positivity
  have s1' : 1000 / (rows : ℚ) * (1 - 1 / 2 ^ 53) ≤ s := by
    have : 1000 / (rows : ℚ) * (1 - 1 / 2 ^ 53) = 1000 / rows - 1000 / rows / 2 ^ 53 := by ring
    rw [this]; linarith
  have s2' : s ≤ 1000 / (rows : ℚ) * (1 + 1 / 2 ^ 53) := by
    have : 1000 / (rows : ℚ) * (1 + 1 / 2 ^ 53) = 1000 / rows + 1000 / rows / 2 ^ 53 := by ring
    rw [this]; linarith
  have y1' : (c : ℚ) * s * (1 - 1 / 2 ^ 53) ≤ y := by
    have : (c : ℚ) * s * (1 - 1 / 2 ^ 53) = c * s - c * s / 2 ^ 53 := by ring
    rw [this]; linarith
  have y2' : y ≤ (c : ℚ) * s * (1 + 1 / 2 ^ 53) := by
    have : (c : ℚ) * s * (1 + 1 / 2 ^ 53) = c * s + c * s / 2 ^ 53 := by ring
    rw [this]; linarith
  have hu1 : (0 : ℚ) < 1 - 1 / 2 ^ 53 := by norm_num
  have hu2 : (0 : ℚ) < 1 + 1 / 2 ^ 53 := by norm_num
  constructor
  · calc (c : ℚ) * 1000 / rows * (1 - 1 / 2 ^ 53) ^ 2
        = c * (1000 / rows * (1 - 1 / 2 ^ 53)) * (1 - 1 / 2 ^ 53) := by ring
      _ ≤ c * s * (1 - 1 / 2 ^ 53) := by
          apply mul_le_mul_of_nonneg_right _ (le_of_lt hu1)
          exact mul_le_mul_of_nonneg_left s1' (le_of_lt hcq)
      _ ≤ y := y1'
  · calc y ≤ (c : ℚ) * s * (1 + 1 / 2 ^ 53) := y2'
      _ ≤ c * (1000 / rows * (1 + 1 / 2 ^ 53)) * (1 + 1 / 2 ^ 53) := by
          apply mul_le_mul_of_nonneg_right _ (le_of_lt hu2)
          exact mul_le_mul_of_nonneg_left s2' (le_of_lt hcq)
      _ = (c : ℚ) * 1000 / rows * (1 + 1 / 2 ^ 53) ^ 2 := by ring

/-- A value within two roundings of `N / R` has the integer part of `N / R`, or one less
when `N / R` is itself an integer. -/
theorem floor_near_quotient (N R : Nat) (hR : 0 < R) (hN : N ≤ 2 ^ 50) (y : ℚ)
    (h1 : (N : ℚ) / R * (1 - 1 / 2 ^ 53) ^ 2 ≤ y)
    (h2 : y ≤ (N : ℚ) / R * (1 + 1 / 2 ^ 53) ^ 2) :
    (N % R ≠ 0 → ⌊y⌋₊ = N / R) ∧ (N % R = 0 → ⌊y⌋₊ = N / R ∨ ⌊y⌋₊ + 1 = N / R) := by
  have hRq : (0 : ℚ) < R := by exact_mod_cast hR
  have hNq : (N : ℚ) ≤ 2 ^ 50 := by exact_mod_cast hN
  have hN0 : (0 : ℚ) ≤ N := by positivity
  have hdm : (R : ℚ) * (N / R : Nat) + (N % R : Nat) = N := by exact_mod_cast Nat.div_add_mod N R
  have hmod : ((N % R : Nat) : ℚ) + 1 ≤ R := by exact_mod_cast Nat.mod_lt N hR
  -- bounds on `R * y`
  have b1 : (N : ℚ) - 3 / 8 ≤ R * y := by
    have h : (R : ℚ) * ((N : ℚ) / R * (1 - 1 / 2 ^ 53) ^ 2) ≤ R * y :=
      mul_le_mul_of_nonneg_left h1 (le_of_lt hRq)
    have e : (R : ℚ) * ((N : ℚ) / R * (1 - 1 / 2 ^ 53) ^ 2) = N * (1 - 1 / 2 ^ 53) ^ 2 := by
      field_simp; ring
    rw [e] at h
    have hc := mul_le_mul_of_nonneg_right hNq
      (show (0 : ℚ) ≤ 1 - (1 - 1 / 2 ^ 53) ^ 2 by norm_num)
    have hc2 : (2 : ℚ) ^ 50 * (1 - (1 - 1 / 2 ^ 53) ^ 2) ≤ 3 / 8 := by norm_num
    linarith
  have b2 : (R : ℚ) * y ≤ N + 3 / 8 := by
    have h : (R : ℚ) * y ≤ R * ((N : ℚ) / R * (1 + 1 / 2 ^ 53) ^ 2) :=
      mul_le_mul_of_nonneg_left h2 (le_of_lt hRq)
    have e : (R : ℚ) * ((N : ℚ) / R * (1 + 1 / 2 ^ 53) ^ 2) = N * (1 + 1 / 2 ^ 53) ^ 2 := by
      field_simp; ring
    rw [e] at h
    have hc := mul_le_mul_of_nonneg_right hNq
      (show (0 : ℚ) ≤ (1 + 1 / 2 ^ 53) ^ 2 - 1 by norm_num)
    have hc2 : (2 : ℚ) ^ 50 * ((1 + 1 / 2 ^ 53) ^ 2 - 1) ≤ 3 / 8 := by norm_num
    linarith
  have hy0 : 0 ≤ y := le_trans (by positivity) h1
  constructor
  · intro hne
    have hr1 : (1 : ℚ) ≤ (N % R : Nat) := by exact_mod_cast Nat.pos_of_ne_zero hne
    rw [Nat.floor_eq_iff hy0]
    constructor
    · by_contra hlt
      push_neg at hlt
      nlinarith
    · by_contra hge
      push_neg at hge
      nlinarith
  · intro h0
    rw [h0] at hdm
    simp only [Nat.cast_zero, add_zero] at hdm
    by_cases hq : ((N / R : Nat) : ℚ) ≤ y
    · left
      rw [Nat.floor_eq_iff hy0]
      refine ⟨hq, ?_⟩
      by_contra hge
      push_neg at hge
      have hR1 : (1 : ℚ) ≤ R := by exact_mod_cast hR
      nlinarith
    · right
      push_neg at hq
      have hqpos : 0 < N / R := by
        rcases Nat.eq_zero_or_pos (N / R) with hz | hp
        · rw [hz] at hq; simp at hq; linarith
        · exact hp
      have hfl : ⌊y⌋₊ = N / R - 1 := by
        rw [Nat.floor_eq_iff hy0]
        have hc : ((N / R - 1 : Nat) : ℚ) = ((N / R : Nat) : ℚ) - 1 := by
          rw [Nat.cast_sub hqpos]; simp
        rw [hc]
        constructor
        · by_contra hlt
          push_neg at hlt
          have hR1 : (1 : ℚ) ≤ R := by exact_mod_cast hR
          nlinarith
        · linarith
      omega

/-- The width the shim computes is the integer part of `cols * 1000 / rows`, or one less when
that quotient is itself an integer. -/
theorem newWidth_spec (rows cols : Nat) (hr : rows ≠ 0) (hc : cols < 2 ^ 31) :
    (cols * 1000 % rows ≠ 0 → newWidth rows cols = cols * 1000 / rows) ∧
      (cols * 1000 % rows = 0 →
        newWidth rows cols = cols * 1000 / rows ∨ newWidth rows cols + 1 = cols * 1000 / rows) := by
  rcases Nat.eq_zero_or_pos cols with h0 | hpos
  · subst h0
    have hw : newWidth rows 0 = 0 := by
      simp [newWidth, Double.mul, Double.ofInt, roundBinary64, Double.toInt]
    simp [hw]
  · have hb := scaled_error rows cols hr (Nat.pos_iff_ne_zero.mp hpos)
    have hN : cols * 1000 ≤ 2 ^ 50 := by
      have : cols * 1000 ≤ 2 ^ 31 * 1000 := Nat.mul_le_mul_right _ (le_of_lt hc)
      exact le_trans this (by norm_num)
    have hf := floor_near_quotient (cols * 1000) rows (Nat.pos_of_ne_zero hr) hN
      (Double.mul (Double.ofInt cols) (scale rows)).toRat
      (by push_cast; exact hb.1) (by push_cast; exact hb.2)
    have hw : newWidth rows cols =
        ⌊(Double.mul (Double.ofInt cols) (scale rows)).toRat⌋₊ := Double.toInt_eq_floor _
    rw [hw]
    exact hf

/-- The height the shim computes is 1000 or 999. -/
theorem newHeight_spec (rows : Nat) (hr : rows ≠ 0) (hc : rows < 2 ^ 31) :
    newHeight rows = 1000 ∨ newHeight rows = 999 := by
  have h := (newWidth_spec rows rows hr hc).2 (Nat.mul_mod_right rows 1000)
  have hq : rows * 1000 / rows = 1000 := by
    rw [Nat.mul_comm]; exact Nat.mul_div_left 1000 (Nat.pos_of_ne_zero hr)
  rw [hq] at h
  have e : newHeight rows = newWidth rows rows := rfl
  rw [e]
  omega

/-- The computed width is within one pixel of the exact scaled width. -/
theorem newWidth_abs (rows cols : Nat) (hr : rows ≠ 0) (hc : cols < 2 ^ 31) :
    |(newWidth rows cols : ℚ) - (cols : ℚ) * 1000 / rows| ≤ 1 := by
  obtain ⟨h1, h2⟩ := newWidth_spec rows cols hr hc
  have hRq : (0 : ℚ) < rows := by exact_mod_cast Nat.pos_of_ne_zero hr
  have hdm : (rows : ℚ) * (cols * 1000 / rows : Nat) + (cols * 1000 % rows : Nat) =
      (cols : ℚ) * 1000 := by exact_mod_cast Nat.div_add_mod (cols * 1000) rows
  have hmod : ((cols * 1000 % rows : Nat) : ℚ) < rows := by
    exact_mod_cast Nat.mod_lt (cols * 1000) (Nat.pos_of_ne_zero hr)
  have hmod0 : (0 : ℚ) ≤ (cols * 1000 % rows : Nat) := by positivity
  have hx : (cols : ℚ) * 1000 / rows =
      (cols * 1000 / rows : Nat) + ((cols * 1000 % rows : Nat) : ℚ) / rows := by
    field_simp; linarith
  have hfrac0 : (0 : ℚ) ≤ ((cols * 1000 % rows : Nat) : ℚ) / rows := by positivity
  have hfrac1 : ((cols * 1000 % rows : Nat) : ℚ) / rows < 1 := by
    rw [div_lt_one hRq]; exact hmod
  rw [hx, abs_le]
  by_cases hz : cols * 1000 % rows = 0
  · have hzq : ((cols * 1000 % rows : Nat) : ℚ) / rows = 0 := by simp [hz]
    rcases h2 hz with h | h
    · rw [h]; constructor <;> linarith
    · have hq : ((cols * 1000 / rows : Nat) : ℚ) = (newWidth rows cols : ℚ) + 1 := by
        exact_mod_cast h.symm
      rw [hq]; constructor <;> linarith
  · rw [h1 hz]; constructor <;> linarith

/-! ## The steps of the loop body -/

theorem ltInt_targetHeight (n : Nat) : Double.ltInt targetHeight n = decide (1000 < n) := by
  simp [Double.ltInt, targetHeight, Double.ofInt]

theorem resize_of_pos (cv : Library) (src : Mat) (w h : Nat) (hw : 0 < w) (hh : 0 < h) :
    resize cv src w h =
      some { rows := h, cols := w, channels := src.channels, data := cv.interpolate src w h } := by
  unfold resize
  rw [if_neg (by omega)]

theorem resize_eq_some (cv : Library) (src p : Mat) (w h : Nat)
    (hp : resize cv src w h = some p) :
    p.rows = h ∧ p.cols = w ∧ p.channels = src.channels ∧ 0 < w ∧ 0 < h := by
  unfold resize at hp
  split at hp
  · exact absurd hp (by simp)
  · rename_i hne
    have hp2 := Option.some.inj hp
    subst hp2
    exact ⟨rfl, rfl, rfl, by omega, by omega⟩

theorem convertChannels_rows (src : Mat) : (convertChannels src).1.rows = src.rows := by
  unfold convertChannels; split_ifs <;> rfl

theorem convertChannels_cols (src : Mat) : (convertChannels src).1.cols = src.cols := by
  unfold convertChannels; split_ifs <;> rfl

theorem convertChannels_channels (src : Mat)
    (h : src.channels = 1 ∨ src.channels = 3 ∨ src.channels = 4) :
    (convertChannels src).1.channels = 3 := by
  unfold convertChannels
  split_ifs with h4 h1
  · rfl
  · rfl
  · simp only [copyTo]; omega

theorem convertChannels_of_three (src : Mat) (h : src.channels = 3) :
    convertChannels src = (src, [Call.copyTo src]) := by
  simp [convertChannels, h, copyTo]

theorem downscale_of_tall (cv : Library) (p : Mat) (h : 1000 < p.rows) :
    downscale cv p = (resize cv p (newWidth p.rows p.cols) (newHeight p.rows),
      [Call.resize p (newWidth p.rows p.cols) (newHeight p.rows)]) := by
  simp [downscale, ltInt_targetHeight, h]

theorem downscale_of_low (cv : Library) (p : Mat) (h : p.rows ≤ 1000) :
    downscale cv p = (some p, []) := by
  simp [downscale, ltInt_targetHeight, Nat.not_lt.mpr h]

theorem downscale_channels (cv : Library) (p q : Mat) (hq : (downscale cv p).1 = some q) :
    q.channels = p.channels := by
  by_cases h : 1000 < p.rows
  · rw [downscale_of_tall cv p h] at hq
    exact (resize_eq_some cv p q _ _ hq).2.2.1
  · rw [downscale_of_low cv p (by omega)] at hq
    rw [← Option.some.inj hq]

theorem prepare_of_tall (cv : Library) (src : Mat) (h : 1000 < src.rows) :
    prepare cv src =
      (resize cv (convertChannels src).1 (newWidth src.rows src.cols) (newHeight src.rows),
        (convertChannels src).2 ++
          [Call.resize (convertChannels src).1 (newWidth src.rows src.cols)
            (newHeight src.rows)]) := by
  have hp : 1000 < (convertChannels src).1.rows := by rw [convertChannels_rows]; exact h
  simp only [prepare, downscale_of_tall cv _ hp, convertChannels_rows, convertChannels_cols]

theorem prepare_of_low (cv : Library) (src : Mat) (h : src.rows ≤ 1000) :
    prepare cv src = (some (convertChannels src).1, (convertChannels src).2) := by
  have hp : (convertChannels src).1.rows ≤ 1000 := by rw [convertChannels_rows]; exact h
  simp only [prepare, downscale_of_low cv _ hp, List.append_nil]

theorem prepare_of_normalized (cv : Library) (src : Mat) (h3 : src.channels = 3)
    (hrows : src.rows ≤ 1000) : prepare cv src = (some src, [Call.copyTo src]) := by
  rw [prepare_of_low cv src hrows, convertChannels_of_three src h3]

theorem prepare_channels (cv : Library) (src p : Mat)
    (h : src.channels = 1 ∨ src.channels = 3 ∨ src.channels = 4)
    (hp : (prepare cv src).1 = some p) : p.channels = 3 := by
  have hq : (downscale cv (convertChannels src).1).1 = some p := hp
  rw [downscale_channels cv _ p hq, convertChannels_channels src h]

theorem prepare_size_of_tall (cv : Library) (src p : Mat) (h : 1000 < src.rows)
    (hp : (prepare cv src).1 = some p) :
    p.rows = newHeight src.rows ∧ p.cols = newWidth src.rows src.cols := by
  rw [prepare_of_tall cv src h] at hp
  have hs := resize_eq_some cv _ p _ _ hp
  exact ⟨hs.1, hs.2.1⟩

/-- Preparation yields an image as soon as no resize is needed or the target size is
non-empty. -/
theorem prepare_yields (cv : Library) (src : Mat)
    (h : 1000 < src.rows → 0 < newWidth src.rows src.cols ∧ 0 < newHeight src.rows) :
    ∃ p, (prepare cv src).1 = some p := by
  by_cases ht : 1000 < src.rows
  · rw [prepare_of_tall cv src ht, resize_of_pos cv _ _ _ (h ht).1 (h ht).2]
    exact ⟨_, rfl⟩
  · rw [prepare_of_low cv src (by omega)]
    exact ⟨_, rfl⟩

theorem prepare_rows_le (cv : Library) (src p : Mat) (hr : src.rows < 2 ^ 31)
    (hp : (prepare cv src).1 = some p) : p.rows ≤ 1000 := by
  by_cases h : 1000 < src.rows
  · rw [(prepare_size_of_tall cv src p h hp).1]
    rcases newHeight_spec src.rows (by omega) hr with h1 | h1 <;> omega
  · rw [prepare_of_low cv src (by omega)] at hp
    rw [← Option.some.inj hp, convertChannels_rows]
    omega

/-- Normalization is idempotent on every image of 1, 3 or 4 channels: preparing a prepared
image gives it back. -/
theorem prepare_idempotent (cv : Library) (src p : Mat)
    (h : src.channels = 1 ∨ src.channels = 3 ∨ src.channels = 4) (hr : src.rows < 2 ^ 31)
    (hp : (prepare cv src).1 = some p) : (prepare cv p).1 = some p := by
  rw [prepare_of_normalized cv p (prepare_channels cv src p h hp)
    (prepare_rows_le cv src p hr hp)]

/-! ## The loop and the entry point -/

theorem prepare_calls_no_stitch (cv : Library) (src : Mat) :
    (prepare cv src).2.filterMap Call.stitchedImages = [] := by
  unfold prepare convertChannels downscale
  split_ifs <;> simp [Call.stitchedImages]

theorem prepareLoop_calls_no_stitch (cv : Library) (srcs images : List Mat)
    (calls : List Call) :
    (prepareLoop cv srcs images calls).2.filterMap Call.stitchedImages =
      calls.filterMap Call.stitchedImages := by
  induction srcs generalizing images calls with
  | nil => rfl
  | cons src rest ih =>
    unfold prepareLoop
    split
    · simp only [List.filterMap_append, prepare_calls_no_stitch, List.append_nil]
    · rw [ih]
      simp only [List.filterMap_append, prepare_calls_no_stitch, List.append_nil]

/-- When the loop completes, `images` has received the prepared sources, one each, in
order. -/
theorem prepareLoop_some (cv : Library) (srcs images L : List Mat) (calls : List Call)
    (hL : (prepareLoop cv srcs images calls).1 = some L) :
    ∃ ps, L = images ++ ps ∧ List.Forall₂ (fun m p => (prepare cv m).1 = some p) srcs ps := by
  induction srcs generalizing images calls with
  | nil =>
    refine ⟨[], ?_, List.Forall₂.nil⟩
    have h : some images = some L := hL
    rw [List.append_nil, Option.some.inj h]
  | cons src rest ih =>
    unfold prepareLoop at hL
    split at hL
    · exact absurd hL (by simp)
    · rename_i p hp
      obtain ⟨ps, hps, hall⟩ := ih _ _ hL
      refine ⟨p :: ps, ?_, List.Forall₂.cons hp hall⟩
      rw [hps, List.append_assoc, List.singleton_append]

/-- The loop completes when every source can be prepared. -/
theorem prepareLoop_complete (cv : Library) (srcs images : List Mat) (calls : List Call)
    (h : ∀ m ∈ srcs, ∃ p, (prepare cv m).1 = some p) :
    ∃ L, (prepareLoop cv srcs images calls).1 = some L := by
  induction srcs generalizing images calls with
  | nil => exact ⟨images, rfl⟩
  | cons src rest ih =>
    obtain ⟨p, hp⟩ := h src (List.mem_cons_self _ _)
    unfold prepareLoop
    split
    · rename_i hn
      rw [hp] at hn
      exact absurd hn (by simp)
    · exact ih _ _ (fun m hm => h m (List.mem_cons_of_mem _ hm))

theorem forall₂_prepared_index (cv : Library) (srcs ps : List Mat)
    (h : List.Forall₂ (fun m p => (prepare cv m).1 = some p) srcs ps) :
    ps.length = srcs.length ∧
      ∀ i : Nat, (ps[i]?).map some = (srcs[i]?).map (fun m => (prepare cv m).1) := by
  induction h with
  | nil => exact ⟨rfl, fun i => by simp⟩
  | cons hp _ ih =>
    refine ⟨by simp [ih.1], fun i => ?_⟩
    cases i with
    | zero => simp [hp]
    | succ j => simpa using ih.2 j

theorem stitch_of_prepared (cv : Library) (imgs images : List Mat) (out : Mat)
    (h : 2 ≤ imgs.length) (hL : (prepareLoop cv imgs [] []).1 = some images) :
    Java_com_pavit_openphotosphere_opencv_NativeStitcher_stitch cv imgs out =
      if (cv.stitch images out).1 ≠ Status.OK ∨ (cv.stitch images out).2.empty = true then
        { code := some (cv.stitch images out).1.toJint,
          result := (cv.stitch images out).2,
          calls := (prepareLoop cv imgs [] []).2 ++ [Call.stitch images] }
      else
        { code := some (cv.stitch images out).1.toJint,
          result := cvtColor (cv.stitch images out).2 .COLOR_BGR2RGBA,
          calls := (prepareLoop cv imgs [] []).2 ++ [Call.stitch images] ++
            [Call.cvtColor (cv.stitch images out).2 .COLOR_BGR2RGBA] } := by
  unfold Java_com_pavit_openphotosphere_opencv_NativeStitcher_stitch
  rw [if_neg (by omega)]
  simp only [hL]

theorem stitch_of_aborted (cv : Library) (imgs : List Mat) (out : Mat)
    (h : 2 ≤ imgs.length) (hL : (prepareLoop cv imgs [] []).1 = none) :
    Java_com_pavit_openphotosphere_opencv_NativeStitcher_stitch cv imgs out =
      { code := none, result := out, calls := (prepareLoop cv imgs [] []).2 } := by
  unfold Java_com_pavit_openphotosphere_opencv_NativeStitcher_stitch
  rw [if_neg (by omega)]
  simp only [hL]

theorem stitch_code_of_prepared (cv : Library) (imgs images : List Mat) (out : Mat)
    (h : 2 ≤ imgs.length) (hL : (prepareLoop cv imgs [] []).1 = some images) :
    (Java_com_pavit_openphotosphere_opencv_NativeStitcher_stitch cv imgs out).code =
      some (cv.stitch images out).1.toJint := by
  rw [stitch_of_prepared cv imgs images out h hL]
  split_ifs <;> rfl

theorem stitch_calls_of_prepared (cv : Library) (imgs images : List Mat) (out : Mat)
    (h : 2 ≤ imgs.length) (hL : (prepareLoop cv imgs [] []).1 = some images) :
    (Java_com_pavit_openphotosphere_opencv_NativeStitcher_stitch cv imgs out).calls.filterMap
      Call.stitchedImages = [images] := by
  rw [stitch_of_prepared cv imgs images out h hL]
  split_ifs <;>
    simp only [List.filterMap_append, prepareLoop_calls_no_stitch, List.filterMap_nil,
      List.nil_append] <;> rfl

/-- A returned code comes from a completed loop. -/
theorem stitch_code_some (cv : Library) (imgs : List Mat) (out : Mat) (c : Int)
    (h : 2 ≤ imgs.length)
    (hc : (Java_com_pavit_openphotosphere_opencv_NativeStitcher_stitch cv imgs out).code =
      some c) :
    ∃ images, (prepareLoop cv imgs [] []).1 = some images ∧
      c = (cv.stitch images out).1.toJint := by
  cases hL : (prepareLoop cv imgs [] []).1 with
  | none =>
    rw [stitch_of_aborted cv imgs out h hL] at hc
    exact absurd hc (by simp)
  | some images =>
    rw [stitch_code_of_prepared cv imgs images out h hL] at hc
    exact ⟨images, rfl, (Option.some.inj hc).symm⟩

theorem toJint_ne_neg_one (s : Status) : s.toJint ≠ -1 := by
  cases s <;> decide

/-! ## The claims -/

/-- Claim C1: with fewer than two images the shim returns -1 at once: no library call is made
(no image is normalized, the pipeline is not invoked) and the output buffer keeps its
content. -/
theorem stitch_insufficient_input (cv : Library) (imgs : List Mat) (out : Mat)
    (h : imgs.length < 2) :
    Java_com_pavit_openphotosphere_opencv_NativeStitcher_stitch cv imgs out =
      { code := some (-1), result := out, calls := [] } := by
  unfold Java_com_pavit_openphotosphere_opencv_NativeStitcher_stitch
  rw [if_pos h]

theorem stitch_insufficient_input_witness :
    [rgbImage].length < 2 ∧
      Java_com_pavit_openphotosphere_opencv_NativeStitcher_stitch firstImagePanorama
        [rgbImage] grayImage = { code := some (-1), result := grayImage, calls := [] } :=
  ⟨by decide, stitch_insufficient_input firstImagePanorama [rgbImage] grayImage (by decide)⟩

/-- Claim C2: the insufficient-input code -1 is negative and differs from every library
status code, each of which is 0, 1, 2 or 3; so the shim returns -1 exactly when fewer than
two images were supplied. -/
theorem stitch_code_neg_one_iff :
    (-1 : Int) < 0 ∧
      (∀ s : Status, (s.toJint = 0 ∨ s.toJint = 1 ∨ s.toJint = 2 ∨ s.toJint = 3) ∧
        s.toJint ≠ -1) ∧
      ∀ (cv : Library) (imgs : List Mat) (out : Mat),
        (Java_com_pavit_openphotosphere_opencv_NativeStitcher_stitch cv imgs out).code =
            some (-1) ↔ imgs.length < 2 := by
  refine ⟨by decide, ?_, ?_⟩
  · intro s; cases s <;> decide
  · intro cv imgs out
    constructor
    · intro hc
      by_contra hlen
      obtain ⟨images, _, hs⟩ := stitch_code_some cv imgs out (-1) (by omega) hc
      exact toJint_ne_neg_one _ hs.symm
    · intro hlen
      unfold Java_com_pavit_openphotosphere_opencv_NativeStitcher_stitch
      rw [if_pos hlen]

/-- Claim C3, refuted as stated: a pipeline that reports OK with an empty panorama makes the
shim return 0 while the output buffer is empty and still has three channels. -/
theorem stitch_ok_with_empty_output :
    2 ≤ [rgbaImage, grayImage].length ∧
      (Java_com_pavit_openphotosphere_opencv_NativeStitcher_stitch emptyPanorama
        [rgbaImage, grayImage] grayImage).code = some 0 ∧
      (Java_com_pavit_openphotosphere_opencv_NativeStitcher_stitch emptyPanorama
        [rgbaImage, grayImage] grayImage).result.empty = true ∧
      (Java_com_pavit_openphotosphere_opencv_NativeStitcher_stitch emptyPanorama
        [rgbaImage, grayImage] grayImage).result.channels ≠ 4 := by
  decide

/-- Claim C3, amended: when the shim returns 0 for at least two images, the pipeline was run
on the prepared images (one per input, in order) and reported OK; if its panorama is
non-empty the output buffer holds the RGBA conversion of it, non-empty and of four channels;
if its panorama is empty the output buffer holds that empty panorama, unconverted. -/
theorem stitch_ok_output (cv : Library) (imgs : List Mat) (out : Mat) (h : 2 ≤ imgs.length)
    (h0 : (Java_com_pavit_openphotosphere_opencv_NativeStitcher_stitch cv imgs out).code =
      some 0) :
    ∃ images, (prepareLoop cv imgs [] []).1 = some images ∧
      images.length = imgs.length ∧
      (∀ i : Nat, (images[i]?).map some = (imgs[i]?).map (fun m => (prepare cv m).1)) ∧
      (cv.stitch images out).1 = Status.OK ∧
      ((cv.stitch images out).2.empty = false →
        (Java_com_pavit_openphotosphere_opencv_NativeStitcher_stitch cv imgs out).result =
            cvtColor (cv.stitch images out).2 .COLOR_BGR2RGBA ∧
          (Java_com_pavit_openphotosphere_opencv_NativeStitcher_stitch cv imgs out).result.empty
            = false ∧
          (Java_com_pavit_openphotosphere_opencv_NativeStitcher_stitch cv imgs out).result.channels
            = 4) ∧
      ((cv.stitch images out).2.empty = true →
        (Java_com_pavit_openphotosphere_opencv_NativeStitcher_stitch cv imgs out).result =
          (cv.stitch images out).2) := by
  obtain ⟨images, hL, hs⟩ := stitch_code_some cv imgs out 0 h h0
  obtain ⟨ps, hps, hall⟩ := prepareLoop_some cv imgs [] images [] hL
  rw [List.nil_append] at hps
  subst hps
  have hidx := forall₂_prepared_index cv imgs images hall
  have hok : (cv.stitch images out).1 = Status.OK := by
    revert hs
    cases (cv.stitch images out).1 <;> simp [Status.toJint]
  refine ⟨images, hL, hidx.1, hidx.2, hok, ?_, ?_⟩
  · intro he
    rw [stitch_of_prepared cv imgs images out h hL, if_neg (by simp [hok, he])]
    refine ⟨rfl, ?_, rfl⟩
    simpa [Mat.empty, cvtColor] using he
  · intro he
    rw [stitch_of_prepared cv imgs images out h hL, if_pos (Or.inr he)]

theorem stitch_ok_output_witness :
    2 ≤ [rgbaImage, grayImage].length ∧
      (Java_com_pavit_openphotosphere_opencv_NativeStitcher_stitch firstImagePanorama
        [rgbaImage, grayImage] grayImage).code = some 0 ∧
      ∃ images, (prepareLoop firstImagePanorama [rgbaImage, grayImage] [] []).1 = some images ∧
        (firstImagePanorama.stitch images grayImage).1 = Status.OK :=
  ⟨by decide, by decide,
    (stitch_ok_output firstImagePanorama [rgbaImage, grayImage] grayImage (by decide)
      (by decide)).imp (fun _ hp => ⟨hp.1, hp.2.2.2.1⟩)⟩

/-- Claim C4: for an image of more than 1000 rows and at least one column (both within the
range of a 32-bit `int`), the shim requests a resize to the size `newWidth` x `newHeight`,
whose height is within one pixel of 1000 and whose width is within one pixel of
`cols * 1000 / rows`; the prepared image, which exists as soon as that width is positive, has
this size. -/
theorem prepare_size_within_one (cv : Library) (src : Mat) (hrows : 1000 < src.rows)
    (_hcols : 1 ≤ src.cols) (hr : src.rows < 2 ^ 31) (hc : src.cols < 2 ^ 31) :
    (prepare cv src).2 = (convertChannels src).2 ++
        [Call.resize (convertChannels src).1 (newWidth src.rows src.cols)
          (newHeight src.rows)] ∧
      |(newHeight src.rows : ℚ) - 1000| ≤ 1 ∧
      |(newWidth src.rows src.cols : ℚ) - (src.cols : ℚ) * 1000 / src.rows| ≤ 1 ∧
      (∀ p, (prepare cv src).1 = some p →
        |(p.rows : ℚ) - 1000| ≤ 1 ∧ |(p.cols : ℚ) - (src.cols : ℚ) * 1000 / src.rows| ≤ 1) ∧
      (0 < newWidth src.rows src.cols → ∃ p, (prepare cv src).1 = some p) := by
  have hh : |(newHeight src.rows : ℚ) - 1000| ≤ 1 := by
    rcases newHeight_spec src.rows (by omega) hr with h | h <;> rw [h] <;> norm_num
  have hw := newWidth_abs src.rows src.cols (by omega) hc
  refine ⟨by rw [prepare_of_tall cv src hrows], hh, hw, ?_, ?_⟩
  · intro p hp
    obtain ⟨h1, h2⟩ := prepare_size_of_tall cv src p hrows hp
    rw [h1, h2]
    exact ⟨hh, hw⟩
  · intro hpos
    apply prepare_yields
    intro _
    refine ⟨hpos, ?_⟩
    rcases newHeight_spec src.rows (by omega) hr with h | h <;> omega

theorem prepare_size_within_one_witness :
    1000 < wideImage.rows ∧
      |(newHeight wideImage.rows : ℚ) - 1000| ≤ 1 ∧
      |(newWidth wideImage.rows wideImage.cols : ℚ) -
        (wideImage.cols : ℚ) * 1000 / wideImage.rows| ≤ 1 :=
  ⟨by decide,
    (prepare_size_within_one needMoreImages wideImage (by decide) (by decide)
      (by decide) (by decide)).2.1,
    (prepare_size_within_one needMoreImages wideImage (by decide) (by decide)
      (by decide) (by decide)).2.2.1⟩

/-- Claim C5, refuted as stated: the image of 1500 columns and 1001 rows is given the width
1498, while the exact scaled width rounded to the nearest integer is 1499. -/
theorem prepare_width_not_rounded :
    1000 < wideImage.rows ∧
      (prepare needMoreImages wideImage).1.map Mat.cols = some 1498 ∧
      newWidth wideImage.rows wideImage.cols = 1498 ∧
      roundedDimension wideImage.cols wideImage.rows = 1499 := by
  decide

/-- Claim C5, amended: for an image of more than 1000 rows (sizes within the range of a
32-bit `int`) the downscaled dimensions are the scaled values, computed in double precision,
truncated: the requested width, which is the width of the prepared image, is the integer
part of `cols * 1000 / rows` when that quotient is not an integer, the quotient or one less
when it is, and the requested height, which is the height of the prepared image, is 1000 or
999. -/
theorem prepare_size_truncated (cv : Library) (src : Mat) (hrows : 1000 < src.rows)
    (hr : src.rows < 2 ^ 31) (hc : src.cols < 2 ^ 31) :
    (prepare cv src).2 = (convertChannels src).2 ++
        [Call.resize (convertChannels src).1 (newWidth src.rows src.cols)
          (newHeight src.rows)] ∧
      (∀ p, (prepare cv src).1 = some p →
        p.cols = newWidth src.rows src.cols ∧ p.rows = newHeight src.rows) ∧
      (¬ src.rows ∣ src.cols * 1000 →
        newWidth src.rows src.cols = src.cols * 1000 / src.rows) ∧
      (src.rows ∣ src.cols * 1000 →
        newWidth src.rows src.cols = src.cols * 1000 / src.rows ∨
          newWidth src.rows src.cols + 1 = src.cols * 1000 / src.rows) ∧
      (newHeight src.rows = 1000 ∨ newHeight src.rows = 999) := by
  obtain ⟨h1, h2⟩ := newWidth_spec src.rows src.cols (by omega) hc
  refine ⟨by rw [prepare_of_tall cv src hrows],
    fun p hp => ⟨(prepare_size_of_tall cv src p hrows hp).2,
      (prepare_size_of_tall cv src p hrows hp).1⟩,
    fun hd => h1 (fun hm => hd (Nat.dvd_of_mod_eq_zero hm)),
    fun hd => h2 (Nat.mod_eq_zero_of_dvd hd), newHeight_spec src.rows (by omega) hr⟩

theorem prepare_size_truncated_witness :
    1000 < wideImage.rows ∧ ¬ wideImage.rows ∣ wideImage.cols * 1000 ∧
      newWidth wideImage.rows wideImage.cols = wideImage.cols * 1000 / wideImage.rows :=
  ⟨by decide, by decide,
    (prepare_size_truncated needMoreImages wideImage (by decide) (by decide)
      (by decide)).2.2.1 (by decide)⟩

/-- Claim C6: a three-channel image of at most 1000 rows is left as it is by normalization
(same pixels, size and channel count), so normalizing the result again changes nothing. -/
theorem prepare_noop_on_normalized (cv : Library) (src : Mat) (h3 : src.channels = 3)
    (hrows : src.rows ≤ 1000) :
    (prepare cv src).1 = some src ∧
      ((prepare cv src).1.bind fun p => (prepare cv p).1) = (prepare cv src).1 := by
  have h := prepare_of_normalized cv src h3 hrows
  rw [h]
  exact ⟨rfl, by rw [Option.some_bind, h]⟩

theorem prepare_noop_on_normalized_witness :
    rgbImage.channels = 3 ∧ rgbImage.rows ≤ 1000 ∧
      (prepare needMoreImages rgbImage).1 = some rgbImage ∧
      ((prepare needMoreImages rgbImage).1.bind fun p => (prepare needMoreImages p).1) =
        (prepare needMoreImages rgbImage).1 :=
  ⟨by decide, by decide, prepare_noop_on_normalized needMoreImages rgbImage (by decide)
    (by decide)⟩

/-- Claim C7: an image of 1, 3 or 4 channels is brought to three channels: four channels
through the RGBA-to-RGB conversion, one channel through the gray-to-RGB conversion, three
channels through a copy; the downscale keeps the channel count, so the prepared image, which
exists when no resize is needed or the target size is non-empty, has three channels. -/
theorem prepare_three_channels (cv : Library) (src : Mat)
    (h : src.channels = 1 ∨ src.channels = 3 ∨ src.channels = 4) :
    (convertChannels src).1.channels = 3 ∧
      (∀ p, (prepare cv src).1 = some p → p.channels = 3) ∧
      ((1000 < src.rows → 0 < newWidth src.rows src.cols ∧ 0 < newHeight src.rows) →
        ∃ p, (prepare cv src).1 = some p ∧ p.channels = 3) ∧
      (src.channels = 4 → convertChannels src =
        (cvtColor src .COLOR_RGBA2RGB, [Call.cvtColor src .COLOR_RGBA2RGB])) ∧
      (src.channels = 1 → convertChannels src =
        (cvtColor src .COLOR_GRAY2RGB, [Call.cvtColor src .COLOR_GRAY2RGB])) ∧
      (src.channels = 3 → convertChannels src = (src, [Call.copyTo src])) ∧
      (∀ p q : Mat, (downscale cv p).1 = some q → q.channels = p.channels) := by
  refine ⟨convertChannels_channels src h, fun p hp => prepare_channels cv src p h hp, ?_, ?_, ?_,
    convertChannels_of_three src, downscale_channels cv⟩
  · intro hs
    obtain ⟨p, hp⟩ := prepare_yields cv src hs
    exact ⟨p, hp, prepare_channels cv src p h hp⟩
  · intro h4; simp [convertChannels, h4]
  · intro h1; simp [convertChannels, h1]

theorem prepare_three_channels_witness :
    (rgbaImage.channels = 1 ∨ rgbaImage.channels = 3 ∨ rgbaImage.channels = 4) ∧
      (convertChannels rgbaImage).1.channels = 3 ∧
      ∃ p, (prepare needMoreImages rgbaImage).1 = some p ∧ p.channels = 3 :=
  ⟨by decide, (prepare_three_channels needMoreImages rgbaImage (by decide)).1,
    (prepare_three_channels needMoreImages rgbaImage (by decide)).2.2.1
      (fun hr => absurd hr (by decide))⟩

/-- Claim C8: for n ≥ 2 input images, every list passed to the pipeline has exactly n images
and its i-th element is the prepared i-th input; and when every resize the loop requests has
a non-empty target size, the pipeline is invoked exactly once. (A resize with an empty
target size raises in the library and ends the call before the pipeline is reached.) -/
theorem stitch_passes_prepared_images (cv : Library) (imgs : List Mat) (out : Mat)
    (h : 2 ≤ imgs.length) :
    (∀ images ∈ (Java_com_pavit_openphotosphere_opencv_NativeStitcher_stitch cv imgs
          out).calls.filterMap Call.stitchedImages,
        images.length = imgs.length ∧
          ∀ i : Nat, (images[i]?).map some = (imgs[i]?).map (fun m => (prepare cv m).1)) ∧
      ((∀ m ∈ imgs, 1000 < m.rows → 0 < newWidth m.rows m.cols ∧ 0 < newHeight m.rows) →
        ∃ images, (Java_com_pavit_openphotosphere_opencv_NativeStitcher_stitch cv imgs
            out).calls.filterMap Call.stitchedImages = [images] ∧
          images.length = imgs.length ∧
          ∀ i : Nat, (images[i]?).map some = (imgs[i]?).map (fun m => (prepare cv m).1)) := by
  have key : ∀ images, (prepareLoop cv imgs [] []).1 = some images →
      images.length = imgs.length ∧
        ∀ i : Nat, (images[i]?).map some = (imgs[i]?).map (fun m => (prepare cv m).1) := by
    intro images hL
    obtain ⟨ps, hps, hall⟩ := prepareLoop_some cv imgs [] images [] hL
    rw [List.nil_append] at hps
    subst hps
    exact forall₂_prepared_index cv imgs images hall
  constructor
  · intro images hmem
    cases hL : (prepareLoop cv imgs [] []).1 with
    | none =>
      rw [stitch_of_aborted cv imgs out h hL] at hmem
      simp only [prepareLoop_calls_no_stitch, List.filterMap_nil, List.not_mem_nil] at hmem
    | some L =>
      rw [stitch_calls_of_prepared cv imgs L out h hL, List.mem_singleton] at hmem
      subst hmem
      exact key images hL
  · intro hs
    obtain ⟨L, hL⟩ := prepareLoop_complete cv imgs [] []
      (fun m hm => prepare_yields cv m (hs m hm))
    exact ⟨L, stitch_calls_of_prepared cv imgs L out h hL, key L hL⟩

theorem stitch_passes_prepared_images_witness :
    2 ≤ [rgbaImage, grayImage].length ∧
      ∃ images, (Java_com_pavit_openphotosphere_opencv_NativeStitcher_stitch firstImagePanorama
          [rgbaImage, grayImage] grayImage).calls.filterMap Call.stitchedImages = [images] ∧
        images.length = [rgbaImage, grayImage].length :=
  ⟨by decide,
    ((stitch_passes_prepared_images firstImagePanorama [rgbaImage, grayImage] grayImage
      (by decide)).2 (by decide)).imp (fun _ hp => ⟨hp.1, hp.2.1⟩)⟩

/-- Claim C9: for at least two images, every integer the shim returns is the numeric value of
the status the pipeline produced on the prepared images (OK 0, need more images 1, homography
estimation failed 2, camera parameter adjustment failed 3), on either return path; and when
every resize the loop requests has a non-empty target size, the pipeline is reached and that
value is returned. (A resize with an empty target size raises in the library and ends the
call without a return value.) -/
theorem stitch_returns_status (cv : Library) (imgs : List Mat) (out : Mat)
    (h : 2 ≤ imgs.length) :
    (∀ c : Int,
        (Java_com_pavit_openphotosphere_opencv_NativeStitcher_stitch cv imgs out).code =
          some c →
        ∃ images, (prepareLoop cv imgs [] []).1 = some images ∧
          c = (cv.stitch images out).1.toJint) ∧
      ((∀ m ∈ imgs, 1000 < m.rows → 0 < newWidth m.rows m.cols ∧ 0 < newHeight m.rows) →
        ∃ images, (prepareLoop cv imgs [] []).1 = some images ∧
          (Java_com_pavit_openphotosphere_opencv_NativeStitcher_stitch cv imgs out).code =
            some (cv.stitch images out).1.toJint) ∧
      Status.OK.toJint = 0 ∧ Status.ERR_NEED_MORE_IMGS.toJint = 1 ∧
      Status.ERR_HOMOGRAPHY_EST_FAIL.toJint = 2 ∧
      Status.ERR_CAMERA_PARAMS_ADJUST_FAIL.toJint = 3 := by
  refine ⟨fun c hc => stitch_code_some cv imgs out c h hc, ?_, rfl, rfl, rfl, rfl⟩
  intro hs
  obtain ⟨L, hL⟩ := prepareLoop_complete cv imgs [] []
    (fun m hm => prepare_yields cv m (hs m hm))
  exact ⟨L, hL, stitch_code_of_prepared cv imgs L out h hL⟩

theorem stitch_returns_status_witness :
    2 ≤ [rgbImage, grayImage].length ∧
      ∃ images, (prepareLoop needMoreImages [rgbImage, grayImage] [] []).1 = some images ∧
        (Java_com_pavit_openphotosphere_opencv_NativeStitcher_stitch needMoreImages
          [rgbImage, grayImage] grayImage).code =
          some (needMoreImages.stitch images grayImage).1.toJint :=
  ⟨by decide,
    (stitch_returns_status needMoreImages [rgbImage, grayImage] grayImage (by decide)).2.1
      (by decide)⟩

/-- Claim C10, failing input: for the image of 2000 rows and one column the computed width is
0 and the resize call is made with the size 0 x 1000, which the library refuses: no prepared
image results, and a call of the shim on this image and another ends without a return value
and without reaching the pipeline. -/
theorem prepare_thin_image_zero_width :
    1000 < thinImage.rows ∧ 1 ≤ thinImage.cols ∧
      newWidth thinImage.rows thinImage.cols = 0 ∧
      (prepare needMoreImages thinImage).2 =
        [Call.copyTo thinImage, Call.resize thinImage 0 1000] ∧
      (prepare needMoreImages thinImage).1 = none ∧
      (Java_com_pavit_openphotosphere_opencv_NativeStitcher_stitch needMoreImages
        [thinImage, rgbImage] rgbImage).code = none ∧
      (Java_com_pavit_openphotosphere_opencv_NativeStitcher_stitch needMoreImages
        [thinImage, rgbImage] rgbImage).calls.filterMap Call.stitchedImages = [] := by
  have hw : newWidth 2000 1 = 0 := by decide
  have hh : newHeight 2000 = 1000 := by decide
  have hr : 1000 < thinImage.rows := by decide
  have hp : prepare needMoreImages thinImage =
      (none, [Call.copyTo thinImage, Call.resize thinImage 0 1000]) := by
    rw [prepare_of_tall _ _ hr, convertChannels_of_three thinImage rfl]
    show (resize needMoreImages thinImage (newWidth 2000 1) (newHeight 2000),
      [Call.copyTo thinImage] ++
        [Call.resize thinImage (newWidth 2000 1) (newHeight 2000)]) = _
    rw [hw, hh]
    rfl
  have hL : (prepareLoop needMoreImages [thinImage, rgbImage] [] []).1 = none := by
    unfold prepareLoop
    rw [hp]
  refine ⟨hr, by decide, by decide, by rw [hp], by rw [hp], ?_, ?_⟩
  · rw [stitch_of_aborted _ _ _ (by decide) hL]
  · rw [stitch_of_aborted _ _ _ (by decide) hL]
    simp only [prepareLoop_calls_no_stitch, List.filterMap_nil]

/-- The width the shim computes is positive as soon as the image is less than 1000 times
taller than wide, and the height it computes is always positive. -/
theorem target_size_pos (rows cols : Nat) (hr : rows ≠ 0) (hr31 : rows < 2 ^ 31)
    (hc : cols < 2 ^ 31) (h : rows < cols * 1000) :
    0 < newWidth rows cols ∧ 0 < newHeight rows := by
  obtain ⟨h1, h2⟩ := newWidth_spec rows cols hr hc
  have hq : 1 ≤ cols * 1000 / rows := (Nat.one_le_div_iff (Nat.pos_of_ne_zero hr)).mpr (le_of_lt h)
  constructor
  · by_cases hz : cols * 1000 % rows = 0
    · have hq2 : 2 ≤ cols * 1000 / rows := by
        have hd := Nat.div_add_mod (cols * 1000) rows
        rw [hz, add_zero] at hd
        by_contra hlt
        have h1' : cols * 1000 / rows = 1 := by omega
        rw [h1', mul_one] at hd
        omega
      rcases h2 hz with h' | h' <;> omega
    · rw [h1 hz]; omega
  · rcases newHeight_spec rows hr hr31 with h' | h' <;> omega

/-- Two inputs on which the roundings of the double arithmetic show: for 1062 rows the
computed height is 999, and for 49 columns by 49000 rows the computed width is 0, although
the exact scaled values are 1000 and 1. -/
theorem truncation_below_exact : newHeight 1062 = 999 ∧ newWidth 49000 49 = 0 := by
  decide

end NativeStitcher
